import Mathlib

/-!
Verification of the Progress Tracker repository's core logic: the task
dependency resolver, the progress store, the metrics aggregator, the
leaderboard and bottleneck rankings, and the attendance network policy.
Each definition is a shallow embedding of the corresponding Python
function; theorems settle the specification claims against them.
-/

namespace ProgressTracker

/-- A document of the `progress` collection, as written by
`DatabaseManager.update_task_progress` (src/models/database.py).
Timestamps are modelled as natural numbers. -/
structure ProgressRec where
  task_id : String
  user_email : String
  status : String
  last_updated : Nat
  completion_date : Option Nat
  notes : String
  links : List String
  deriving Repr, DecidableEq

/-- A document of the `tasks` collection; `id` holds `str(task["_id"])`,
the lower-case hex form of the ObjectId. -/
structure Task where
  id : String
  title : String
  prerequisites : List String
  deriving Repr, DecidableEq

/-- The slices of the document store the resolver and aggregator read:
the `tasks` and `progress` collections, in natural (insertion) order. -/
structure Store where
  tasks : List Task
  progress : List ProgressRec
  deriving Repr, DecidableEq

/-- `find_one` on the progress collection with filter
`{"task_id": tid, "user_email": user}`: first matching document. -/
def findProgress (ps : List ProgressRec) (tid user : String) : Option ProgressRec :=
  ps.find? (fun p => p.task_id = tid && p.user_email = user)

/-- `bson.ObjectId(s)` accepts a 24-character hex string and normalizes it
to lower case; any other string raises (modelled as `none`). -/
def isHexChar (c : Char) : Bool :=
  c.isDigit || ('a' ≤ c && c ≤ 'f') || ('A' ≤ c && c ≤ 'F')

def hexLower (c : Char) : Char :=
  if 'A' ≤ c && c ≤ 'Z' then Char.ofNat (c.toNat + 32) else c

def parseObjectId (s : String) : Option String :=
  if s.length = 24 && s.data.all isHexChar then some (String.mk (s.data.map hexLower)) else none

/-- `find_one` on the tasks collection with filter `{"_id": oid}`. -/
def findTask (ts : List Task) (oid : String) : Option Task :=
  ts.find? (fun t => t.id = oid)

/-- Whether a single prerequisite blocks: the loop body of
`can_start_task` returns False when the progress record is missing or its
status is not "done". -/
def prereqDone (ps : List ProgressRec) (user pid : String) : Bool :=
  match findProgress ps pid user with
  | none => false
  | some p => p.status = "done"

/-- `DatabaseManager.can_start_task(task_id, user_email)`
(src/models/database.py lines 239-276).  An invalid ObjectId string or a
missing task yields False (the former via the broad `except`); an empty
or absent prerequisite list yields True; otherwise every prerequisite's
progress record for the user must exist with status "done". -/
def can_start_task (store : Store) (task_id user_email : String) : Bool :=
  match parseObjectId task_id with
  | none => false
  | some oid =>
    match findTask store.tasks oid with
    | none => false
    | some task =>
      if task.prerequisites.isEmpty then true
      else task.prerequisites.all (fun pid => prereqDone store.progress user_email pid)

/-- The `$set` update applied to an existing progress document by
`update_task_progress`: status and last_updated always; completion_date
only on a transition into "done"; notes/links only when provided. -/
def updatedRec (ex : ProgressRec) (status : String) (notes : Option String)
    (links : Option (List String)) (now : Nat) : ProgressRec :=
  { ex with
    status := status
    last_updated := now
    completion_date :=
      if status = "done" && !(ex.status = "done") then some now else ex.completion_date
    notes := notes.getD ex.notes
    links := links.getD ex.links }

/-- The document inserted by `update_task_progress` when no progress
record exists yet for (task, user). -/
def newRec (tid user status : String) (notes : Option String)
    (links : Option (List String)) (now : Nat) : ProgressRec :=
  { task_id := tid
    user_email := user
    status := status
    last_updated := now
    completion_date := if status = "done" then some now else none
    notes := notes.getD ""
    links := links.getD [] }

/-- `update_one` with an `_id` filter rewrites exactly the first document
matched by the preceding `find_one`. -/
def replaceFirst {α : Type} (p : α → Bool) (f : α → α) : List α → List α
  | [] => []
  | x :: xs => if p x then f x :: xs else x :: replaceFirst p f xs

/-- Effect of `DatabaseManager.update_task_progress` (src/models/database.py
lines 118-187) on the progress collection: update the first matching
document, or append a fresh one. -/
def update_task_progress (store : Store) (tid user status : String)
    (notes : Option String) (links : Option (List String)) (now : Nat) : Store :=
  match findProgress store.progress tid user with
  | some _ =>
    { store with progress :=
        (replaceFirst (fun p => p.task_id = tid && p.user_email = user)
          (fun ex => updatedRec ex status notes links now) store.progress) }
  | none => { store with progress := store.progress ++ [newRec tid user status notes links now] }

/-! ### Lookup lemmas for the progress collection -/

theorem find?_append_of_none {α : Type} (p : α → Bool) (l₁ l₂ : List α)
    (h : l₁.find? p = none) : (l₁ ++ l₂).find? p = l₂.find? p := by
  induction l₁ with
  | nil => rfl
  | cons x xs ih =>
    by_cases hx : p x = true
    · rw [List.find?_cons_of_pos _ hx] at h; exact absurd h (by simp)
    · rw [List.find?_cons_of_neg _ hx] at h
      rw [List.cons_append, List.find?_cons_of_neg _ hx]
      exact ih h

theorem findProgress_replaceFirst (ps : List ProgressRec) (tid user : String)
    (f : ProgressRec → ProgressRec)
    (hf : ∀ p, (f p).task_id = p.task_id ∧ (f p).user_email = p.user_email) :
    findProgress (replaceFirst (fun p => p.task_id = tid && p.user_email = user) f ps) tid user
      = (findProgress ps tid user).map f := by
  induction ps with
  | nil => rfl
  | cons x xs ih =>
    by_cases hx : (x.task_id = tid && x.user_email = user) = true
    · have hfx : ((f x).task_id = tid && (f x).user_email = user) = true := by
        obtain ⟨h1, h2⟩ := hf x
        rw [h1, h2]; exact hx
      simp only [findProgress, replaceFirst, hx, if_true]
      rw [List.find?_cons_of_pos (p := fun q => q.task_id = tid && q.user_email = user) xs hfx,
        List.find?_cons_of_pos (p := fun q => q.task_id = tid && q.user_email = user) xs hx]
      rfl
    · simp only [findProgress, replaceFirst, hx, if_false, Bool.false_eq_true]
      rw [List.find?_cons_of_neg (p := fun q : ProgressRec => q.task_id = tid && q.user_email = user) _ hx,
        List.find?_cons_of_neg (p := fun q : ProgressRec => q.task_id = tid && q.user_email = user) xs hx]
      exact ih

/-- After `update_task_progress`, the lookup for the same (task, user)
returns the rewritten (or freshly inserted) document. -/
theorem findProgress_update (store : Store) (tid user status : String)
    (notes : Option String) (links : Option (List String)) (now : Nat) :
    findProgress (update_task_progress store tid user status notes links now).progress tid user
      = some (match findProgress store.progress tid user with
              | some ex => updatedRec ex status notes links now
              | none => newRec tid user status notes links now) := by
  cases hfind : findProgress store.progress tid user with
  | some ex =>
    simp only [update_task_progress, hfind]
    rw [findProgress_replaceFirst store.progress tid user
      (fun r => updatedRec r status notes links now) (fun p => ⟨rfl, rfl⟩), hfind]
    rfl
  | none =>
    simp only [update_task_progress, hfind]
    show findProgress (store.progress ++ [newRec tid user status notes links now]) tid user = _
    unfold findProgress at hfind ⊢
    rw [find?_append_of_none _ _ _ hfind]
    rw [List.find?_cons_of_pos (l := []) (by simp [newRec])]

theorem update_task_progress_tasks (store : Store) (tid user status : String)
    (notes : Option String) (links : Option (List String)) (now : Nat) :
    (update_task_progress store tid user status notes links now).tasks = store.tasks := by
  unfold update_task_progress
  cases findProgress store.progress tid user <;> rfl

theorem prereqDone_iff (ps : List ProgressRec) (user pid : String) :
    prereqDone ps user pid = true ↔
      ∃ p, findProgress ps pid user = some p ∧ p.status = "done" := by
  unfold prereqDone
  cases h : findProgress ps pid user with
  | none => simp
  | some p => simp [h]

/-- C1: for a task present in the store, `can_start_task` is true iff the
prerequisite list is empty or every prerequisite's progress record for the
user exists with status "done" (a missing record blocks), and updating any
single prerequisite's status for that user to anything other than "done"
makes the result false. -/
theorem can_start_task_correct (store : Store) (task_id user oid : String) (task : Task)
    (hp : parseObjectId task_id = some oid)
    (ht : findTask store.tasks oid = some task) :
    (can_start_task store task_id user = true ↔
      (task.prerequisites = [] ∨
        ∀ pid ∈ task.prerequisites,
          ∃ p, findProgress store.progress pid user = some p ∧ p.status = "done"))
    ∧ ∀ pid ∈ task.prerequisites, ∀ st, st ≠ "done" →
        ∀ notes links now,
          can_start_task (update_task_progress store pid user st notes links now) task_id user
            = false := by
  constructor
  · simp only [can_start_task, hp, ht]
    by_cases hemp : task.prerequisites.isEmpty = true
    · rw [if_pos hemp]
      simp only [List.isEmpty_iff] at hemp
      simp [hemp]
    · rw [if_neg hemp]
      simp only [List.isEmpty_iff] at hemp
      rw [List.all_eq_true]
      constructor
      · intro h
        exact Or.inr (fun pid hm => (prereqDone_iff store.progress user pid).mp (h pid hm))
      · rintro (h | h)
        · exact absurd h hemp
        · exact fun pid hm => (prereqDone_iff store.progress user pid).mpr (h pid hm)
  · intro pid hm st hst notes links now
    have htasks := update_task_progress_tasks store pid user st notes links now
    simp only [can_start_task, hp, htasks, ht]
    have hemp : ¬ task.prerequisites.isEmpty = true := by
      cases hpre : task.prerequisites with
      | nil => rw [hpre] at hm; exact absurd hm (List.not_mem_nil pid)
      | cons a l => simp [hpre]
    rw [if_neg hemp]
    have hrec := findProgress_update store pid user st notes links now
    have hstat : (match findProgress store.progress pid user with
        | some ex => updatedRec ex st notes links now
        | none => newRec pid user st notes links now).status = st := by
      cases findProgress store.progress pid user <;> rfl
    have hpd : prereqDone (update_task_progress store pid user st notes links now).progress
        user pid = false := by
      unfold prereqDone
      rw [hrec]
      simp [hstat, hst]
    rw [Bool.eq_false_iff]
    intro hall
    rw [List.all_eq_true] at hall
    have hcontra := hall pid hm
    rw [hpd] at hcontra
    exact Bool.false_ne_true hcontra

/-- Witness for C1 at a concrete store: a two-task chain where the single
prerequisite is done, so the dependent task can start. -/
theorem can_start_task_correct_witness :
    can_start_task
      { tasks := [⟨"aaaaaaaaaaaaaaaaaaaaaaaa", "Setup", []⟩,
                  ⟨"bbbbbbbbbbbbbbbbbbbbbbbb", "Build", ["aaaaaaaaaaaaaaaaaaaaaaaa"]⟩],
        progress := [⟨"aaaaaaaaaaaaaaaaaaaaaaaa", "intern@x.io", "done", 5, some 5, "", []⟩] }
      "bbbbbbbbbbbbbbbbbbbbbbbb" "intern@x.io" = true :=
  (can_start_task_correct
      { tasks := [⟨"aaaaaaaaaaaaaaaaaaaaaaaa", "Setup", []⟩,
                  ⟨"bbbbbbbbbbbbbbbbbbbbbbbb", "Build", ["aaaaaaaaaaaaaaaaaaaaaaaa"]⟩],
        progress := [⟨"aaaaaaaaaaaaaaaaaaaaaaaa", "intern@x.io", "done", 5, some 5, "", []⟩] }
      "bbbbbbbbbbbbbbbbbbbbbbbb" "intern@x.io" "bbbbbbbbbbbbbbbbbbbbbbbb"
      ⟨"bbbbbbbbbbbbbbbbbbbbbbbb", "Build", ["aaaaaaaaaaaaaaaaaaaaaaaa"]⟩
      (by decide) (by decide)).1.mpr
    (Or.inr (by
      intro pid hm
      simp only [List.mem_singleton] at hm
      subst hm
      exact ⟨⟨"aaaaaaaaaaaaaaaaaaaaaaaa", "intern@x.io", "done", 5, some 5, "", []⟩,
        by decide, rfl⟩))

/-- C10: a task id that does not parse as an ObjectId, or that matches no
task document, makes `can_start_task` return false for every user. -/
theorem can_start_task_missing_false (store : Store) (task_id user : String)
    (h : parseObjectId task_id = none ∨
         ∃ oid, parseObjectId task_id = some oid ∧ findTask store.tasks oid = none) :
    can_start_task store task_id user = false := by
  rcases h with h | ⟨oid, hp, ht⟩
  · simp only [can_start_task, h]
  · simp only [can_start_task, hp, ht]

/-- Witness for C10: a malformed task id on an empty store. -/
theorem can_start_task_missing_false_witness :
    can_start_task { tasks := [], progress := [] } "not-an-objectid" "intern@x.io" = false :=
  can_start_task_missing_false _ _ _ (Or.inl (by decide))

/-! ### C2: the progress-record completion_date invariant -/

theorem mem_replaceFirst {α : Type} (p : α → Bool) (f : α → α) (l : List α) (x : α)
    (hx : x ∈ replaceFirst p f l) : x ∈ l ∨ ∃ q, q ∈ l ∧ x = f q := by
  induction l with
  | nil => exact absurd hx (List.not_mem_nil x)
  | cons a as ih =>
    by_cases ha : p a = true
    · simp only [replaceFirst, ha, if_true] at hx
      rcases List.mem_cons.mp hx with h | h
      · exact Or.inr ⟨a, List.mem_cons_self a as, h⟩
      · exact Or.inl (List.mem_cons_of_mem a h)
    · simp only [replaceFirst, ha, if_false, Bool.false_eq_true] at hx
      rcases List.mem_cons.mp hx with h | h
      · exact Or.inl (h ▸ List.mem_cons_self a as)
      · rcases ih h with h' | ⟨q, hq, hfq⟩
        · exact Or.inl (List.mem_cons_of_mem a h')
        · exact Or.inr ⟨q, List.mem_cons_of_mem a hq, hfq⟩

/-- Counterexample to C2: starting from an empty store, marking task "t1"
done at time 10 and un-marking it back to in_progress at time 20 leaves a
record whose status is not "done" but whose completion_date is still set,
so "completion_date is set iff status = done" fails on the code. -/
theorem update_task_progress_unmark_counterexample :
    ¬ (∀ p ∈ (update_task_progress
          (update_task_progress { tasks := [], progress := [] } "t1" "u@x" "done" none none 10)
          "t1" "u@x" "in_progress" none none 20).progress,
        (p.completion_date ≠ none ↔ p.status = "done")) := by
  decide

/-- C2 amended: `update_task_progress` preserves the one-way invariant
"status = done implies completion_date is set", but un-marking does not
clear completion_date: marking a fresh task done at `t1` and un-marking it
to in_progress at `t2` leaves status "in_progress" with completion_date
still `some t1` (the code maintains no started_at or time_spent fields at
all). -/
theorem update_task_progress_amended (store : Store) (tid user : String)
    (notes1 notes2 : Option String) (links1 links2 : Option (List String)) (t1 t2 : Nat)
    (hnone : findProgress store.progress tid user = none) :
    (∀ status notes links now,
      (∀ p ∈ store.progress, p.status = "done" → p.completion_date ≠ none) →
      ∀ p ∈ (update_task_progress store tid user status notes links now).progress,
        p.status = "done" → p.completion_date ≠ none)
    ∧ findProgress
        (update_task_progress (update_task_progress store tid user "done" notes1 links1 t1)
          tid user "in_progress" notes2 links2 t2).progress tid user
      = some { task_id := tid, user_email := user, status := "in_progress",
               last_updated := t2, completion_date := some t1,
               notes := notes2.getD (notes1.getD ""), links := links2.getD (links1.getD []) } := by
  constructor
  · intro status notes links now hinv p hp hdone
    unfold update_task_progress at hp
    cases hfind : findProgress store.progress tid user with
    | some ex =>
      rw [hfind] at hp
      simp only at hp
      rcases mem_replaceFirst _ _ _ _ hp with h | ⟨q, hq, hfq⟩
      · exact hinv p h hdone
      · subst hfq
        simp only [updatedRec] at hdone ⊢
        subst hdone
        by_cases hqd : q.status = "done"
        · simpa [hqd] using hinv q hq hqd
        · simp [hqd]
    | none =>
      rw [hfind] at hp
      simp only at hp
      rcases List.mem_append.mp hp with h | h
      · exact hinv p h hdone
      · rcases List.mem_singleton.mp h with rfl
        simp only [newRec] at hdone ⊢
        subst hdone
        simp
  · have h1 := findProgress_update store tid user "done" notes1 links1 t1
    simp only [hnone] at h1
    have h2 := findProgress_update
      (update_task_progress store tid user "done" notes1 links1 t1)
      tid user "in_progress" notes2 links2 t2
    simp only [h1] at h2
    rw [h2]
    rfl

/-- Witness for C2's amended theorem at a concrete store. -/
theorem update_task_progress_amended_witness :
    findProgress (update_task_progress
        (update_task_progress { tasks := [], progress := [] } "t1" "u@x" "done" none none 10)
        "t1" "u@x" "in_progress" none none 20).progress "t1" "u@x"
      = some { task_id := "t1", user_email := "u@x", status := "in_progress",
               last_updated := 20, completion_date := some 10, notes := "", links := [] } :=
  (update_task_progress_amended { tasks := [], progress := [] } "t1" "u@x"
    none none none none 10 20 (by decide)).2

/-! ### C3: completion rate in get_performance_metrics -/

/-- The status attached to a task by `get_user_tasks`: the user's progress
record if one exists, else the default "not_started" stub. -/
def taskStatus (ps : List ProgressRec) (user : String) (t : Task) : String :=
  match findProgress ps t.id user with
  | some p => p.status
  | none => "not_started"

/-- `completed_tasks` of `get_performance_metrics`: tasks whose attached
progress status is "done". -/
def completedTasksCount (store : Store) (user : String) : Nat :=
  (store.tasks.filter (fun t => taskStatus store.progress user t = "done")).length

/-- `completion_rate` of `get_performance_metrics`
(src/models/database.py line 1045): `completed / total * 100` guarded by
`total_tasks > 0`, else 0. -/
def completion_rate (store : Store) (user : String) : Rat :=
  if store.tasks.length > 0 then
    (completedTasksCount store user : Rat) / (store.tasks.length : Rat) * 100
  else 0

/-- C3: the completion rate equals completed/total*100, is exactly 0 when
there are no tasks (no division-by-zero fault: the rate is total and
defined), and is exactly 100 when every task is done. -/
theorem completion_rate_correct (store : Store) (user : String) :
    (store.tasks.length = 0 → completion_rate store user = 0)
    ∧ (0 < store.tasks.length →
        completion_rate store user
          = (completedTasksCount store user : Rat) / (store.tasks.length : Rat) * 100)
    ∧ (0 < store.tasks.length →
        (∀ t ∈ store.tasks, taskStatus store.progress user t = "done") →
        completion_rate store user = 100) := by
  refine ⟨fun h0 => ?_, fun hpos => ?_, fun hpos hall => ?_⟩
  · simp [completion_rate, h0]
  · simp [completion_rate, hpos]
  · have hcount : completedTasksCount store user = store.tasks.length := by
      unfold completedTasksCount
      rw [List.filter_eq_self.mpr (fun t ht => by simp [hall t ht])]
    have hne : ((store.tasks.length : Rat)) ≠ 0 := by
      exact_mod_cast Nat.pos_iff_ne_zero.mp hpos
    rw [completion_rate, if_pos hpos, hcount, div_self hne, one_mul]

/-- Witness for C3: a two-task store where both tasks are done. -/
theorem completion_rate_correct_witness :
    completion_rate
      { tasks := [⟨"aaaaaaaaaaaaaaaaaaaaaaaa", "Setup", []⟩,
                  ⟨"bbbbbbbbbbbbbbbbbbbbbbbb", "Build", []⟩],
        progress := [⟨"aaaaaaaaaaaaaaaaaaaaaaaa", "intern@x.io", "done", 5, some 5, "", []⟩,
                     ⟨"bbbbbbbbbbbbbbbbbbbbbbbb", "intern@x.io", "done", 6, some 6, "", []⟩] }
      "intern@x.io" = 100 :=
  (completion_rate_correct
    { tasks := [⟨"aaaaaaaaaaaaaaaaaaaaaaaa", "Setup", []⟩,
                ⟨"bbbbbbbbbbbbbbbbbbbbbbbb", "Build", []⟩],
      progress := [⟨"aaaaaaaaaaaaaaaaaaaaaaaa", "intern@x.io", "done", 5, some 5, "", []⟩,
                   ⟨"bbbbbbbbbbbbbbbbbbbbbbbb", "intern@x.io", "done", 6, some 6, "", []⟩] }
    "intern@x.io").2.2 (by decide) (by decide)

/-! ### Stable descending sort, modelling Python's `list.sort(key=...,
reverse=True)` (a stable sort: elements with equal keys keep their input
order). -/

def insertDescBy {α β : Type} [LinearOrder β] (key : α → β) (x : α) : List α → List α
  | [] => [x]
  | y :: ys => if key y ≤ key x then x :: y :: ys else y :: insertDescBy key x ys

def sortDescBy {α β : Type} [LinearOrder β] (key : α → β) : List α → List α
  | [] => []
  | x :: xs => insertDescBy key x (sortDescBy key xs)

theorem length_insertDescBy {α β : Type} [LinearOrder β] (key : α → β) (x : α) (l : List α) :
    (insertDescBy key x l).length = l.length + 1 := by
  induction l with
  | nil => rfl
  | cons y ys ih =>
    by_cases h : key y ≤ key x
    · simp [insertDescBy, h]
    · simp [insertDescBy, h, ih]

theorem length_sortDescBy {α β : Type} [LinearOrder β] (key : α → β) (l : List α) :
    (sortDescBy key l).length = l.length := by
  induction l with
  | nil => rfl
  | cons x xs ih => simp [sortDescBy, length_insertDescBy, ih]

theorem mem_insertDescBy {α β : Type} [LinearOrder β] (key : α → β) (x z : α) (l : List α) :
    z ∈ insertDescBy key x l ↔ z = x ∨ z ∈ l := by
  induction l with
  | nil => simp [insertDescBy]
  | cons y ys ih =>
    by_cases h : key y ≤ key x
    · simp [insertDescBy, h]
    · simp only [insertDescBy, h, if_false, Bool.false_eq_true, List.mem_cons, ih]
      tauto

theorem mem_sortDescBy {α β : Type} [LinearOrder β] (key : α → β) (z : α) (l : List α) :
    z ∈ sortDescBy key l ↔ z ∈ l := by
  induction l with
  | nil => simp [sortDescBy]
  | cons x xs ih =>
    simp [sortDescBy, mem_insertDescBy, ih]

theorem pairwise_insertDescBy {α β : Type} [LinearOrder β] (key : α → β) (x : α) (l : List α)
    (h : l.Pairwise (fun a b => key b ≤ key a)) :
    (insertDescBy key x l).Pairwise (fun a b => key b ≤ key a) := by
  induction l with
  | nil => simp [insertDescBy]
  | cons y ys ih =>
    rcases List.pairwise_cons.mp h with ⟨hy, hys⟩
    by_cases hle : key y ≤ key x
    · simp only [insertDescBy, hle, if_true]
      refine List.pairwise_cons.mpr ⟨?_, h⟩
      intro z hz
      rcases List.mem_cons.mp hz with rfl | hz'
      · exact hle
      · exact le_trans (hy z hz') hle
    · simp only [insertDescBy, hle, if_false, Bool.false_eq_true]
      refine List.pairwise_cons.mpr ⟨?_, ih hys⟩
      intro z hz
      rcases (mem_insertDescBy key x z ys).mp hz with rfl | hz'
      · exact le_of_not_le hle
      · exact hy z hz'

theorem pairwise_sortDescBy {α β : Type} [LinearOrder β] (key : α → β) (l : List α) :
    (sortDescBy key l).Pairwise (fun a b => key b ≤ key a) := by
  induction l with
  | nil => simp [sortDescBy]
  | cons x xs ih => exact pairwise_insertDescBy key x _ ih

/-- Stability of the insertion step: the sublist of elements with any
fixed key value is preserved (the new element lands in front of none of
the strictly-greater prefix). -/
theorem filter_key_insertDescBy {α β : Type} [LinearOrder β] [DecidableEq β]
    (key : α → β) (r : β) (x : α) (l : List α) :
    (insertDescBy key x l).filter (fun a => key a = r)
      = if key x = r then x :: l.filter (fun a => key a = r)
        else l.filter (fun a => key a = r) := by
  induction l with
  | nil =>
    by_cases hx : key x = r <;> simp [insertDescBy, hx]
  | cons y ys ih =>
    by_cases hle : key y ≤ key x
    · simp only [insertDescBy, if_pos hle]
      by_cases hx : key x = r <;> simp [hx]
    · simp only [insertDescBy, if_neg hle]
      have hgt : key x < key y := lt_of_not_le hle
      by_cases hx : key x = r
      · have hy : ¬ key y = r := by
          intro hyr
          rw [hx, hyr] at hgt
          exact lt_irrefl r hgt
        simp [hx, hy, ih]
      · by_cases hy : key y = r <;> simp [hx, hy, ih]

theorem filter_key_sortDescBy {α β : Type} [LinearOrder β] [DecidableEq β]
    (key : α → β) (r : β) (l : List α) :
    (sortDescBy key l).filter (fun a => key a = r) = l.filter (fun a => key a = r) := by
  induction l with
  | nil => rfl
  | cons x xs ih =>
    by_cases hx : key x = r
    · simp [sortDescBy, filter_key_insertDescBy, hx, ih]
    · simp [sortDescBy, filter_key_insertDescBy, hx, ih]

/-! ### C4: the leaderboard (get_leaderboard, src/models/database.py
lines 1131-1188) -/

structure Intern where
  email : String
  name : String
  deriving Repr, DecidableEq

structure LeaderboardEntry where
  email : String
  name : String
  completed_tasks : Nat
  total_tasks : Nat
  completion_rate : Rat
  productivity : Rat
  attendance_rate : Rat
  position : Nat
  deriving Repr, DecidableEq

/-- `count_documents({"user_email": email, "status": "done"})`. -/
def completedCountOf (ps : List ProgressRec) (email : String) : Nat :=
  (ps.filter (fun p => p.user_email = email && p.status = "done")).length

/-- The per-intern entry built inside the loop of `get_leaderboard`;
`perf` supplies the (productivity, attendance_rate) pair read from
`get_performance_metrics`.  Python dicts have no `position` key at this
point; modelled as 0 until `assignPositions`. -/
def leaderboardEntryFor (store : Store) (perf : String → Rat × Rat) (i : Intern) :
    LeaderboardEntry :=
  { email := i.email
    name := i.name
    completed_tasks := completedCountOf store.progress i.email
    total_tasks := store.tasks.length
    completion_rate :=
      if store.tasks.length > 0 then
        (completedCountOf store.progress i.email : Rat) / (store.tasks.length : Rat) * 100
      else 0
    productivity := (perf i.email).1
    attendance_rate := (perf i.email).2
    position := 0 }

def leaderboardUnranked (interns : List Intern) (store : Store)
    (perf : String → Rat × Rat) : List LeaderboardEntry :=
  interns.map (leaderboardEntryFor store perf)

/-- `for i, entry in enumerate(leaderboard): entry["position"] = i + 1`. -/
def assignPositionsFrom (n : Nat) : List LeaderboardEntry → List LeaderboardEntry
  | [] => []
  | e :: es => { e with position := n + 1 } :: assignPositionsFrom (n + 1) es

/-- `DatabaseManager.get_leaderboard`: build one entry per intern, sort by
completion rate descending (stable), then assign 1-based positions. -/
def get_leaderboard (interns : List Intern) (store : Store)
    (perf : String → Rat × Rat) : List LeaderboardEntry :=
  assignPositionsFrom 0
    (sortDescBy (fun e => e.completion_rate) (leaderboardUnranked interns store perf))

theorem length_assignPositionsFrom (n : Nat) (l : List LeaderboardEntry) :
    (assignPositionsFrom n l).length = l.length := by
  induction l generalizing n with
  | nil => rfl
  | cons e es ih => simp [assignPositionsFrom, ih]

theorem get_assignPositionsFrom (n : Nat) (l : List LeaderboardEntry) (i : Nat)
    (h : i < (assignPositionsFrom n l).length) (h' : i < l.length) :
    (assignPositionsFrom n l).get ⟨i, h⟩ = { l.get ⟨i, h'⟩ with position := n + i + 1 } := by
  induction l generalizing n i with
  | nil => exact absurd h' (Nat.not_lt_zero i)
  | cons e es ih =>
    cases i with
    | zero => rfl
    | succ j =>
      have hj' : j < es.length := Nat.lt_of_succ_lt_succ h'
      have hj : j < (assignPositionsFrom (n + 1) es).length := by
        rw [length_assignPositionsFrom]
        exact hj'
      have hrec := ih (n + 1) j hj hj'
      rw [show n + 1 + j + 1 = n + (j + 1) + 1 from by omega] at hrec
      show (assignPositionsFrom (n + 1) es).get ⟨j, hj⟩
          = { es.get ⟨j, hj'⟩ with position := n + (j + 1) + 1 }
      exact hrec

theorem mem_assignPositionsFrom (n : Nat) (l : List LeaderboardEntry) (e : LeaderboardEntry)
    (he : e ∈ assignPositionsFrom n l) : ∃ q ∈ l, e.completion_rate = q.completion_rate := by
  induction l generalizing n with
  | nil => cases he
  | cons a as ih =>
    rcases List.mem_cons.mp he with rfl | h
    · exact ⟨a, List.mem_cons_self a as, rfl⟩
    · rcases ih (n + 1) h with ⟨q, hq, hr⟩
      exact ⟨q, List.mem_cons_of_mem a hq, hr⟩

theorem filter_email_assignPositionsFrom (n : Nat) (l : List LeaderboardEntry) (r : Rat) :
    ((assignPositionsFrom n l).filter (fun e => e.completion_rate = r)).map
        (fun e => e.email)
      = (l.filter (fun e => e.completion_rate = r)).map (fun e => e.email) := by
  induction l generalizing n with
  | nil => rfl
  | cons e es ih =>
    by_cases he : e.completion_rate = r
    · simp [assignPositionsFrom, he, ih]
    · simp [assignPositionsFrom, he, ih]

theorem rankedSort_position (l : List LeaderboardEntry) (i : Nat)
    (h : i < (assignPositionsFrom 0 (sortDescBy (fun e => e.completion_rate) l)).length) :
    ((assignPositionsFrom 0 (sortDescBy (fun e => e.completion_rate) l)).get ⟨i, h⟩).position
      = i + 1 := by
  have h' : i < (sortDescBy (fun e => e.completion_rate) l).length := by
    rw [length_assignPositionsFrom] at h
    exact h
  rw [get_assignPositionsFrom 0 _ i h h']
  show 0 + i + 1 = i + 1
  omega

theorem rankedSort_rate (l : List LeaderboardEntry) (i : Nat)
    (h : i < (assignPositionsFrom 0 (sortDescBy (fun e => e.completion_rate) l)).length)
    (h' : i < (sortDescBy (fun e => e.completion_rate) l).length) :
    ((assignPositionsFrom 0 (sortDescBy (fun e => e.completion_rate) l)).get
        ⟨i, h⟩).completion_rate
      = ((sortDescBy (fun e => e.completion_rate) l).get ⟨i, h'⟩).completion_rate := by
  rw [get_assignPositionsFrom 0 _ i h h']

theorem rankedSort_monotone (l : List LeaderboardEntry) (i j : Nat)
    (hi : i < (assignPositionsFrom 0 (sortDescBy (fun e => e.completion_rate) l)).length)
    (hj : j < (assignPositionsFrom 0 (sortDescBy (fun e => e.completion_rate) l)).length)
    (hij : i ≤ j) :
    ((assignPositionsFrom 0 (sortDescBy (fun e => e.completion_rate) l)).get
        ⟨j, hj⟩).completion_rate
      ≤ ((assignPositionsFrom 0 (sortDescBy (fun e => e.completion_rate) l)).get
        ⟨i, hi⟩).completion_rate := by
  have hi' : i < (sortDescBy (fun e => e.completion_rate) l).length := by
    rw [length_assignPositionsFrom] at hi
    exact hi
  have hj' : j < (sortDescBy (fun e => e.completion_rate) l).length := by
    rw [length_assignPositionsFrom] at hj
    exact hj
  rw [rankedSort_rate l i hi hi', rankedSort_rate l j hj hj']
  rcases Nat.lt_or_ge i j with hlt | hge
  · exact (List.pairwise_iff_get.mp
      (pairwise_sortDescBy (fun e : LeaderboardEntry => e.completion_rate) l))
      ⟨i, hi'⟩ ⟨j, hj'⟩ hlt
  · have heq : i = j := Nat.le_antisymm hij hge
    subst heq
    exact le_refl _

theorem rankedSort_head_max (l : List LeaderboardEntry)
    (h0 : 0 < (assignPositionsFrom 0 (sortDescBy (fun e => e.completion_rate) l)).length)
    (e : LeaderboardEntry)
    (he : e ∈ assignPositionsFrom 0 (sortDescBy (fun e => e.completion_rate) l)) :
    e.completion_rate
      ≤ ((assignPositionsFrom 0 (sortDescBy (fun e => e.completion_rate) l)).get
        ⟨0, h0⟩).completion_rate := by
  have h0' : 0 < (sortDescBy (fun e => e.completion_rate) l).length := by
    rw [length_assignPositionsFrom] at h0
    exact h0
  rw [rankedSort_rate l 0 h0 h0']
  rcases mem_assignPositionsFrom 0 _ e he with ⟨q, hq, hr⟩
  rw [hr]
  rcases List.mem_iff_get.mp hq with ⟨⟨k, hk⟩, hget⟩
  rcases Nat.eq_zero_or_pos k with hz | hpos
  · subst hz
    rw [← hget]
  · rw [← hget]
    exact (List.pairwise_iff_get.mp
      (pairwise_sortDescBy (fun e : LeaderboardEntry => e.completion_rate) l))
      ⟨0, h0'⟩ ⟨k, hk⟩ hpos

/-- C4: leaderboard positions are 1-based in list order; completion rate
is non-increasing along positions; position 1 carries the maximum
completion rate; and the entries sharing any completion-rate value keep
their stable input (intern-list) order. -/
theorem get_leaderboard_correct (interns : List Intern) (store : Store)
    (perf : String → Rat × Rat) :
    (∀ i (h : i < (get_leaderboard interns store perf).length),
        ((get_leaderboard interns store perf).get ⟨i, h⟩).position = i + 1)
    ∧ (∀ i j (hi : i < (get_leaderboard interns store perf).length)
          (hj : j < (get_leaderboard interns store perf).length), i ≤ j →
        ((get_leaderboard interns store perf).get ⟨j, hj⟩).completion_rate
          ≤ ((get_leaderboard interns store perf).get ⟨i, hi⟩).completion_rate)
    ∧ (∀ h0 : 0 < (get_leaderboard interns store perf).length,
        ∀ e ∈ get_leaderboard interns store perf,
          e.completion_rate
            ≤ ((get_leaderboard interns store perf).get ⟨0, h0⟩).completion_rate)
    ∧ (∀ r : Rat,
        (((get_leaderboard interns store perf).filter
            (fun e => e.completion_rate = r)).map (fun e => e.email))
          = ((leaderboardUnranked interns store perf).filter
              (fun e => e.completion_rate = r)).map (fun e => e.email)) := by
  refine ⟨?_, ?_, ?_, ?_⟩
  · exact fun i h => rankedSort_position (leaderboardUnranked interns store perf) i h
  · exact fun i j hi hj hij =>
      rankedSort_monotone (leaderboardUnranked interns store perf) i j hi hj hij
  · exact fun h0 e he => rankedSort_head_max (leaderboardUnranked interns store perf) h0 e he
  · intro r
    show ((assignPositionsFrom 0 (sortDescBy (fun e => e.completion_rate)
        (leaderboardUnranked interns store perf))).filter
          (fun e => e.completion_rate = r)).map (fun e => e.email)
      = ((leaderboardUnranked interns store perf).filter
          (fun e => e.completion_rate = r)).map (fun e => e.email)
    rw [filter_email_assignPositionsFrom,
      filter_key_sortDescBy (fun e : LeaderboardEntry => e.completion_rate) r
        (leaderboardUnranked interns store perf)]

theorem c4_witness_len :
    0 < (get_leaderboard [⟨"a@x", "A"⟩, ⟨"b@x", "B"⟩]
        { tasks := [⟨"aaaaaaaaaaaaaaaaaaaaaaaa", "Setup", []⟩],
          progress := [⟨"aaaaaaaaaaaaaaaaaaaaaaaa", "b@x", "done", 5, some 5, "", []⟩] }
        (fun _ => (0, 0))).length := by
  rw [get_leaderboard, length_assignPositionsFrom, length_sortDescBy,
    leaderboardUnranked, List.length_map]
  decide

/-- Witness for C4: two interns sharing one task, one of them done. -/
theorem get_leaderboard_correct_witness :
    ∃ h : 0 < (get_leaderboard [⟨"a@x", "A"⟩, ⟨"b@x", "B"⟩]
        { tasks := [⟨"aaaaaaaaaaaaaaaaaaaaaaaa", "Setup", []⟩],
          progress := [⟨"aaaaaaaaaaaaaaaaaaaaaaaa", "b@x", "done", 5, some 5, "", []⟩] }
        (fun _ => (0, 0))).length,
      ((get_leaderboard [⟨"a@x", "A"⟩, ⟨"b@x", "B"⟩]
          { tasks := [⟨"aaaaaaaaaaaaaaaaaaaaaaaa", "Setup", []⟩],
            progress := [⟨"aaaaaaaaaaaaaaaaaaaaaaaa", "b@x", "done", 5, some 5, "", []⟩] }
          (fun _ => (0, 0))).get ⟨0, h⟩).position = 1 :=
  ⟨c4_witness_len,
    (get_leaderboard_correct [⟨"a@x", "A"⟩, ⟨"b@x", "B"⟩]
      { tasks := [⟨"aaaaaaaaaaaaaaaaaaaaaaaa", "Setup", []⟩],
        progress := [⟨"aaaaaaaaaaaaaaaaaaaaaaaa", "b@x", "done", 5, some 5, "", []⟩] }
      (fun _ => (0, 0))).1 0 c4_witness_len⟩

/-! ### C5: bottleneck ranking in the mentor dashboard
(src/components/mentor_dashboard.py lines 389-403) -/

/-- A task as seen by the mentor dashboard's bottleneck pass: `status` is
the aggregated progress status computed just above it (done if any intern
finished the task, else in_progress if any is working on it, else
not_started). -/
structure DashTask where
  id : String
  title : String
  status : String
  prerequisites : List String
  deriving Repr, DecidableEq

structure BottleneckEntry where
  title : String
  id : String
  status : String
  blocks : Nat
  deriving Repr, DecidableEq

/-- `sum(1 for t in all_tasks if str(task["_id"]) in t.get("prerequisites", []))`. -/
def dependentCount (all_tasks : List DashTask) (t : DashTask) : Nat :=
  (all_tasks.filter (fun t2 => t.id ∈ t2.prerequisites)).length

/-- The loop that collects bottleneck candidates: dependent count above
one and aggregated status not "done". -/
def bottleneckEntries (all_tasks : List DashTask) : List BottleneckEntry :=
  (all_tasks.filter
      (fun t => dependentCount all_tasks t > 1 && !(t.status = "done"))).map
    (fun t => { title := t.title, id := t.id, status := t.status,
                blocks := dependentCount all_tasks t })

/-- `bottleneck_tasks.sort(key=lambda x: x["blocks"], reverse=True)` —
Python's stable sort, descending on the dependent count. -/
def bottleneck_tasks (all_tasks : List DashTask) : List BottleneckEntry :=
  sortDescBy (fun b => b.blocks) (bottleneckEntries all_tasks)

/-- Lexicographic order on strings as Python compares task titles
(character by character, shorter prefix first). -/
def charListLt : List Char → List Char → Bool
  | [], [] => false
  | [], _ :: _ => true
  | _ :: _, [] => false
  | a :: as, b :: bs => if a < b then true else if b < a then false else charListLt as bs

def pyStrLt (a b : String) : Bool := charListLt a.data b.data

/-- Counterexample to C5: two never-started bottleneck tasks each blocking
the same two dependents (equal count 2) come out in input order
("zzz" before "aaa"), not in ascending title order. -/
theorem bottleneck_tiebreak_counterexample :
    ((bottleneck_tasks [⟨"a", "zzz", "not_started", []⟩, ⟨"b", "aaa", "not_started", []⟩,
        ⟨"c", "ccc", "not_started", ["a", "b"]⟩, ⟨"d", "ddd", "not_started", ["a", "b"]⟩]).map
      (fun b => b.title) = ["zzz", "aaa"])
    ∧ ((bottleneck_tasks [⟨"a", "zzz", "not_started", []⟩, ⟨"b", "aaa", "not_started", []⟩,
        ⟨"c", "ccc", "not_started", ["a", "b"]⟩, ⟨"d", "ddd", "not_started", ["a", "b"]⟩]).map
      (fun b => b.blocks) = [2, 2])
    ∧ pyStrLt "aaa" "zzz" = true := by
  refine ⟨by decide, by decide, by decide⟩

/-- C5 amended: a task is listed as a bottleneck iff its aggregated status
is not "done" and more than one task of the list references it as a
prerequisite; the list is ordered by dependent count descending, and ties
keep the stable input order of the task list (there is no title
tie-break). -/
theorem bottleneck_tasks_amended (all_tasks : List DashTask) :
    (∀ b, b ∈ bottleneck_tasks all_tasks ↔
      ∃ t ∈ all_tasks, dependentCount all_tasks t > 1 ∧ t.status ≠ "done" ∧
        b = { title := t.title, id := t.id, status := t.status,
              blocks := dependentCount all_tasks t })
    ∧ (bottleneck_tasks all_tasks).Pairwise (fun a b => b.blocks ≤ a.blocks)
    ∧ (∀ k : Nat, (bottleneck_tasks all_tasks).filter (fun b => b.blocks = k)
        = (bottleneckEntries all_tasks).filter (fun b => b.blocks = k)) := by
  refine ⟨?_, ?_, ?_⟩
  · intro b
    rw [bottleneck_tasks, mem_sortDescBy, bottleneckEntries]
    simp only [List.mem_map, List.mem_filter, Bool.and_eq_true, decide_eq_true_eq,
      Bool.not_eq_true', decide_eq_false_iff_not]
    constructor
    · rintro ⟨t, ⟨ht, hcount, hdone⟩, rfl⟩
      exact ⟨t, ht, hcount, hdone, rfl⟩
    · rintro ⟨t, ht, hcount, hdone, rfl⟩
      exact ⟨t, ⟨ht, hcount, hdone⟩, rfl⟩
  · exact pairwise_sortDescBy (fun b : BottleneckEntry => b.blocks) _
  · intro k
    exact filter_key_sortDescBy (fun b : BottleneckEntry => b.blocks) k
      (bottleneckEntries all_tasks)

/-! ### C6: the attendance network policy
(`is_on_allowed_network`, src/utils/network.py lines 88-130) -/

/-- Observed network attributes; `ip` is "Unknown" when detection failed
and `ssid` is `none` when no SSID could be read. -/
structure NetworkInfo where
  ip : String
  ssid : Option String
  deriving Repr, DecidableEq

/-- The four allow-list keys the function reads; `none` models an absent
dictionary key. -/
structure AllowList where
  ssid : Option (List String)
  ip_exact : Option (List String)
  ip_ranges : Option (List String)
  ip_cidr : Option (List String)
  deriving Repr, DecidableEq

def splitOnChar (sep : Char) : List Char → List (List Char)
  | [] => [[]]
  | c :: cs =>
    if c = sep then [] :: splitOnChar sep cs
    else
      match splitOnChar sep cs with
      | [] => [[c]]
      | g :: gs => (c :: g) :: gs

/-- One dotted-quad octet as `ipaddress` accepts it: one to three decimal
digits, no leading zero, value at most 255. -/
def parseOctet (cs : List Char) : Option Nat :=
  if cs.length = 0 || cs.length > 3 then none
  else if !(cs.all fun c => c.isDigit) then none
  else if cs.length > 1 && cs.head? = some '0' then none
  else
    let v := cs.foldl (fun acc c => acc * 10 + (c.toNat - '0'.toNat)) 0
    if v ≤ 255 then some v else none

/-- `ipaddress.ip_address` for IPv4 dotted-quad strings, as the 32-bit
numeric value; anything else raises ValueError (modelled as `none`). -/
def parseIPv4Core (cs : List Char) : Option Nat :=
  match splitOnChar '.' cs with
  | [a, b, c, d] =>
    match parseOctet a, parseOctet b, parseOctet c, parseOctet d with
    | some x, some y, some z, some w => some (((x * 256 + y) * 256 + z) * 256 + w)
    | _, _, _, _ => none
  | _ => none

def parseIPv4 (s : String) : Option Nat := parseIPv4Core s.data

structure Cidr where
  base : Nat
  bits : Nat
  deriving Repr, DecidableEq

def parseBits (cs : List Char) : Option Nat :=
  if cs.length = 0 || cs.length > 2 then none
  else if !(cs.all fun c => c.isDigit) then none
  else if cs.length > 1 && cs.head? = some '0' then none
  else
    let v := cs.foldl (fun acc c => acc * 10 + (c.toNat - '0'.toNat)) 0
    if v ≤ 32 then some v else none

/-- `ipaddress.ip_network` (strict, the default): "a.b.c.d/n" or a bare
address; host bits set below the mask raise ValueError. -/
def parseCidr (s : String) : Option Cidr :=
  match splitOnChar '/' s.data with
  | [addr] =>
    match parseIPv4Core addr with
    | some a => some ⟨a, 32⟩
    | none => none
  | [addr, p] =>
    match parseIPv4Core addr, parseBits p with
    | some a, some n => if a % 2 ^ (32 - n) = 0 then some ⟨a, n⟩ else none
    | _, _ => none
  | _ => none

def cidrContains (c : Cidr) (a : Nat) : Bool :=
  a / 2 ^ (32 - c.bits) = c.base / 2 ^ (32 - c.bits)

/-- The `for cidr_range in ...` loop inside the `try`: a ValueError from a
malformed entry aborts the remaining iterations (caught by the enclosing
`except ValueError: pass`). -/
def cidrScan (a : Nat) : List String → Bool
  | [] => false
  | c :: rest =>
    match parseCidr c with
    | none => false
    | some net => if cidrContains net a then true else cidrScan a rest

/-- `str.startswith` on the observed IP. -/
def headMatches : List Char → List Char → Bool
  | [], _ => true
  | _ :: _, [] => false
  | a :: as, b :: bs => a = b && headMatches as bs

def pyStartsWith (s r : String) : Bool := headMatches r.data s.data

/-- The SSID branch: a truthy (non-empty) observed SSID, the "ssid" key
present, and membership in its list. -/
def ssidMatches (net : NetworkInfo) (al : AllowList) : Bool :=
  match net.ssid, al.ssid with
  | some s, some l => !(s = "") && decide (s ∈ l)
  | _, _ => false

/-- `is_on_allowed_network` of src/utils/network.py, with the observed
network attributes passed explicitly: a falsy allow-list denies; the SSID
check may allow; the three IP checks (exact, textual-prefix, CIDR) run
only when the observed IP is known and the allow-list has an "ip_ranges"
key; otherwise deny. -/
def is_on_allowed_network (net : NetworkInfo) (allowed : Option AllowList) : Bool :=
  match allowed with
  | none => false
  | some al =>
    if ssidMatches net al then true
    else if !(net.ip = "Unknown") && (al.ip_ranges).isSome then
      if decide (net.ip ∈ al.ip_exact.getD []) then true
      else if (al.ip_ranges.getD []).any (fun r => pyStartsWith net.ip r) then true
      else
        match parseIPv4 net.ip with
        | none => false
        | some a => cidrScan a (al.ip_cidr.getD [])
    else false

/-- Counterexample to C6: an observed IP listed verbatim in `ip_exact` is
still denied when the allow-list carries no `ip_ranges` key, because every
IP-based check is gated behind `"ip_ranges" in allowed_networks`. -/
theorem is_on_allowed_network_counterexample :
    is_on_allowed_network ⟨"127.0.0.1", none⟩
        (some ⟨some [], some ["127.0.0.1"], none, some []⟩) = false
    ∧ "127.0.0.1" ∈ ["127.0.0.1"] := by
  exact ⟨by decide, by decide⟩

theorem ssidMatches_iff (net : NetworkInfo) (al : AllowList) (hssid : net.ssid ≠ some "") :
    ssidMatches net al = true ↔ ∃ s l, net.ssid = some s ∧ al.ssid = some l ∧ s ∈ l := by
  unfold ssidMatches
  cases hns : net.ssid with
  | none => simp
  | some s =>
    cases hal : al.ssid with
    | none => simp
    | some l =>
      have hs : ¬ s = "" := fun h => hssid (h ▸ hns)
      simp [hs]

theorem cidrScan_iff (a : Nat) (cidrs : List String)
    (h : ∀ c ∈ cidrs, (parseCidr c).isSome = true) :
    cidrScan a cidrs = true ↔
      ∃ c ∈ cidrs, ∃ n, parseCidr c = some n ∧ cidrContains n a = true := by
  induction cidrs with
  | nil => simp [cidrScan]
  | cons c rest ih =>
    have hc := h c (List.mem_cons_self c rest)
    cases hpc : parseCidr c with
    | none => rw [hpc] at hc; cases hc
    | some net =>
      have ihr := ih (fun c' hc' => h c' (List.mem_cons_of_mem c hc'))
      simp only [cidrScan, hpc]
      by_cases hin : cidrContains net a = true
      · simp only [hin, if_true]
        constructor
        · intro _
          exact ⟨c, List.mem_cons_self c rest, net, hpc, hin⟩
        · intro _
          trivial
      · simp only [hin, if_false, Bool.false_eq_true, ihr]
        constructor
        · rintro ⟨c', hc', n, hpn, hcn⟩
          exact ⟨c', List.mem_cons_of_mem c hc', n, hpn, hcn⟩
        · rintro ⟨c', hc', n, hpn, hcn⟩
          rcases List.mem_cons.mp hc' with rfl | hc''
          · rw [hpc] at hpn
            injection hpn with hn
            subst hn
            exact absurd hcn hin
          · exact ⟨c', hc'', n, hpn, hcn⟩

/-- C6 amended: with a non-empty observed SSID and well-formed CIDR
entries, `is_on_allowed_network` on a present allow-list is true iff the
SSID matches, or the observed IP is known ("Unknown" excluded), the
allow-list carries an `ip_ranges` key, and the IP matches exactly, by
textual prefix, or by CIDR containment; in particular it is false when no
check matches or when the allow-list is absent. -/
theorem is_on_allowed_network_amended (net : NetworkInfo) (al : AllowList)
    (hssid : net.ssid ≠ some "")
    (hcidr : ∀ c ∈ al.ip_cidr.getD [], (parseCidr c).isSome = true) :
    (is_on_allowed_network net (some al) = true ↔
      ((∃ s l, net.ssid = some s ∧ al.ssid = some l ∧ s ∈ l)
       ∨ (net.ip ≠ "Unknown" ∧ (al.ip_ranges).isSome = true ∧
           (net.ip ∈ al.ip_exact.getD []
            ∨ (∃ r ∈ al.ip_ranges.getD [], pyStartsWith net.ip r = true)
            ∨ (∃ a, parseIPv4 net.ip = some a ∧
                ∃ c ∈ al.ip_cidr.getD [], ∃ n, parseCidr c = some n ∧
                  cidrContains n a = true)))))
    ∧ is_on_allowed_network net none = false := by
  refine ⟨?_, rfl⟩
  have hssidIff := ssidMatches_iff net al hssid
  simp only [is_on_allowed_network]
  by_cases h1 : ssidMatches net al = true
  · rw [if_pos h1]
    exact iff_of_true rfl (Or.inl (hssidIff.mp h1))
  · rw [if_neg h1]
    by_cases h2 : (!(net.ip = "Unknown") && (al.ip_ranges).isSome) = true
    · rw [if_pos h2]
      rw [Bool.and_eq_true] at h2
      obtain ⟨hip, hrng⟩ := h2
      have hip' : net.ip ≠ "Unknown" := by simpa using hip
      by_cases h3 : decide (net.ip ∈ al.ip_exact.getD []) = true
      · rw [if_pos h3]
        exact iff_of_true rfl (Or.inr ⟨hip', hrng, Or.inl (by simpa using h3)⟩)
      · rw [if_neg h3]
        have h3' : net.ip ∉ al.ip_exact.getD [] := by simpa using h3
        by_cases h4 : (al.ip_ranges.getD []).any (fun r => pyStartsWith net.ip r) = true
        · rw [if_pos h4]
          refine iff_of_true rfl (Or.inr ⟨hip', hrng, Or.inr (Or.inl ?_)⟩)
          simpa [List.any_eq_true] using h4
        · rw [if_neg h4]
          have h4' : ¬ ∃ r ∈ al.ip_ranges.getD [], pyStartsWith net.ip r = true := by
            simpa [List.any_eq_true] using h4
          cases hpa : parseIPv4 net.ip with
          | none =>
            apply iff_of_false (by simp)
            rintro (hs | ⟨_, _, (hex | hr | ⟨a, hpa', _⟩)⟩)
            · exact h1 (hssidIff.mpr hs)
            · exact h3' hex
            · exact h4' hr
            · cases hpa'
          | some a =>
            rw [cidrScan_iff a _ hcidr]
            constructor
            · intro hex
              exact Or.inr ⟨hip', hrng, Or.inr (Or.inr ⟨a, rfl, hex⟩)⟩
            · rintro (hs | ⟨_, _, (hex | hr | ⟨a', hpa', hc⟩)⟩)
              · exact absurd (hssidIff.mpr hs) h1
              · exact absurd hex h3'
              · exact absurd hr h4'
              · injection hpa' with ha
                subst ha
                exact hc
    · rw [if_neg h2]
      apply iff_of_false (by simp)
      rintro (hs | ⟨hip, hrng, _⟩)
      · exact h1 (hssidIff.mpr hs)
      · apply h2
        rw [Bool.and_eq_true]
        exact ⟨by simpa using hip, hrng⟩

/-- Witness for C6's amended theorem: an IP inside a listed CIDR block is
allowed when the `ip_ranges` key is present. -/
theorem is_on_allowed_network_amended_witness :
    is_on_allowed_network ⟨"10.1.2.3", none⟩
        (some ⟨none, some [], some [], some ["10.0.0.0/8"]⟩) = true :=
  (is_on_allowed_network_amended ⟨"10.1.2.3", none⟩
      ⟨none, some [], some [], some ["10.0.0.0/8"]⟩
      (by decide) (by decide)).1.mpr
    (Or.inr ⟨by decide, rfl,
      Or.inr (Or.inr ⟨167838211, by decide,
        "10.0.0.0/8", by decide, ⟨167772160, 8⟩, by decide, by decide⟩)⟩)

/-! ### C7: the completion streak -/

/-- Modelled from the spec: no function under src/ computes the streak
(src/models/schemas.py only declares the `streak_days` field).  Per the
spec, the streak walks backward day by day from today, incrementing while
some done-Progress record's completed_at falls within that calendar day,
and stopping at the first day with none; days are calendar-day ordinals. -/
def streakFrom (completionDays : List Nat) : Nat → Nat
  | 0 => if 0 ∈ completionDays then 1 else 0
  | t + 1 => if (t + 1) ∈ completionDays then streakFrom completionDays t + 1 else 0

/-- The calendar days (via `dayOf` applied to the timestamp) on which the
user has a done progress record with a completion date. -/
def completionDaysOf (ps : List ProgressRec) (user : String) (dayOf : Nat → Nat) : List Nat :=
  (ps.filter (fun p => p.user_email = user && p.status = "done")).filterMap
    (fun p => p.completion_date.map dayOf)

/-- Modelled from the spec: `streak(user)` over the user's done records. -/
def streak (ps : List ProgressRec) (user : String) (dayOf : Nat → Nat) (today : Nat) : Nat :=
  streakFrom (completionDaysOf ps user dayOf) today

theorem streakFrom_succ_mem (cs : List Nat) (t : Nat) (h : (t + 1) ∈ cs) :
    streakFrom cs (t + 1) = streakFrom cs t + 1 := by
  simp [streakFrom, h]

theorem streakFrom_not_mem (cs : List Nat) (t : Nat) (h : t ∉ cs) :
    streakFrom cs t = 0 := by
  cases t with
  | zero => simp [streakFrom, h]
  | succ u => simp [streakFrom, h]

theorem streakFrom_zero_mem (cs : List Nat) (h : 0 ∈ cs) : streakFrom cs 0 = 1 := by
  simp [streakFrom, h]

theorem streakFrom_range (n m : Nat) (h : n < m) : streakFrom (List.range m) n = n + 1 := by
  induction n with
  | zero => exact streakFrom_zero_mem _ (List.mem_range.mpr h)
  | succ k ih =>
    rw [streakFrom_succ_mem _ k (List.mem_range.mpr h), ih (Nat.lt_of_succ_lt h)]

/-- C7: completions on today, yesterday and the day before give streak 3;
completions on today and the day before yesterday (a gap) give streak 1;
and the walk has no cap (completions on every one of the first n+1 days
give streak n+1). -/
theorem streak_correct (user : String) :
    (∀ t : Nat, 2 ≤ t →
      streak [⟨"t1", user, "done", 0, some t, "", []⟩,
              ⟨"t2", user, "done", 0, some (t - 1), "", []⟩,
              ⟨"t3", user, "done", 0, some (t - 2), "", []⟩] user id t = 3)
    ∧ (∀ t : Nat, 2 ≤ t →
      streak [⟨"t1", user, "done", 0, some t, "", []⟩,
              ⟨"t3", user, "done", 0, some (t - 2), "", []⟩] user id t = 1)
    ∧ (∀ n : Nat, streakFrom (List.range (n + 1)) n = n + 1) := by
  refine ⟨?_, ?_, fun n => streakFrom_range n (n + 1) (Nat.lt_succ_self n)⟩
  · intro t ht
    obtain ⟨k, rfl⟩ : ∃ k, t = k + 2 := ⟨t - 2, by omega⟩
    have hd : completionDaysOf
        [⟨"t1", user, "done", 0, some (k + 2), "", []⟩,
         ⟨"t2", user, "done", 0, some (k + 2 - 1), "", []⟩,
         ⟨"t3", user, "done", 0, some (k + 2 - 2), "", []⟩] user id = [k + 2, k + 1, k] := by
      simp [completionDaysOf]
    unfold streak
    rw [hd, streakFrom_succ_mem _ (k + 1) (by simp),
      streakFrom_succ_mem _ k (by simp)]
    cases k with
    | zero => rw [streakFrom_zero_mem _ (by simp)]
    | succ j =>
      rw [streakFrom_succ_mem _ j (by simp),
        streakFrom_not_mem _ j
          (by simp only [List.mem_cons, List.mem_nil_iff, or_false]; omega)]
  · intro t ht
    obtain ⟨k, rfl⟩ : ∃ k, t = k + 2 := ⟨t - 2, by omega⟩
    have hd : completionDaysOf
        [⟨"t1", user, "done", 0, some (k + 2), "", []⟩,
         ⟨"t3", user, "done", 0, some (k + 2 - 2), "", []⟩] user id = [k + 2, k] := by
      simp [completionDaysOf]
    unfold streak
    rw [hd, streakFrom_succ_mem _ (k + 1) (by simp),
      streakFrom_not_mem _ (k + 1)
        (by simp only [List.mem_cons, List.mem_nil_iff, or_false]; omega)]

/-- Witness for C7 at today = 2. -/
theorem streak_correct_witness :
    streak [⟨"t1", "intern@x.io", "done", 0, some 2, "", []⟩,
            ⟨"t2", "intern@x.io", "done", 0, some 1, "", []⟩,
            ⟨"t3", "intern@x.io", "done", 0, some 0, "", []⟩] "intern@x.io" id 2 = 3 :=
  (streak_correct "intern@x.io").1 2 (by decide)

/-! ### C9: retry and default-value policy of the store fetches
(`_execute_db_operation` and the surrounding try/except blocks,
src/models/database.py) -/

/-- Outcome of one attempt of a database operation: a value, a transient
connectivity failure (`ConnectionFailure`/`NetworkTimeout`), or any other
exception. -/
inductive DBOutcome (α : Type) where
  | ok : α → DBOutcome α
  | transient : DBOutcome α
  | fatal : DBOutcome α

/-- What `_execute_db_operation` can raise to its caller. -/
inductive DBError where
  | transient : DBError
  | fatal : DBError
  deriving Repr, DecidableEq

/-- The retry loop of `_execute_db_operation` (lines 48-71), indexed by
the attempt number and the remaining loop iterations: only transient
errors are retried, and only while `attempt < max_retries - 1`; any other
exception propagates at once; the fall-through after the loop (line 71)
raises a plain Exception. -/
def execFrom {α : Type} (f : Nat → DBOutcome α) : Nat → Nat → Except DBError α
  | _, 0 => .error .fatal
  | attempt, remaining + 1 =>
    match f attempt with
    | .ok x => .ok x
    | .transient =>
      if remaining = 0 then .error .transient else execFrom f (attempt + 1) remaining
    | .fatal => .error .fatal

/-- `_execute_db_operation(operation_func, max_retries)`. -/
def execute_db_operation {α : Type} (f : Nat → DBOutcome α) (maxRetries : Nat) :
    Except DBError α :=
  execFrom f 0 maxRetries

/-- How many attempts the loop makes. -/
def attemptsFrom {α : Type} (f : Nat → DBOutcome α) : Nat → Nat → Nat
  | _, 0 => 0
  | attempt, remaining + 1 =>
    match f attempt with
    | .ok _ => 1
    | .transient => if remaining = 0 then 1 else 1 + attemptsFrom f (attempt + 1) remaining
    | .fatal => 1

/-- The outer `try/except` of every data-fetch method: run the operation
through the retry helper with the default `max_retries = 3`, and replace
any escaped exception by a neutral default value. -/
def fetchWithDefault {α : Type} (dflt : α) (f : Nat → DBOutcome α) : Except DBError α :=
  match execute_db_operation f 3 with
  | .ok v => .ok v
  | .error _ => .ok dflt

/-- `get_user_tasks` (lines 111-116): default `[]`. -/
def get_user_tasks_result (f : Nat → DBOutcome (List Task)) : Except DBError (List Task) :=
  fetchWithDefault [] f

/-- `get_task_dependencies` (lines 232-237): default empty prerequisites
and dependents. -/
def get_task_dependencies_result (f : Nat → DBOutcome (List Task × List Task)) :
    Except DBError (List Task × List Task) :=
  fetchWithDefault ([], []) f

/-- The metrics dictionary shape returned by `get_performance_metrics`. -/
structure MetricsResult where
  total_tasks : Nat
  completed_tasks : Nat
  in_progress_tasks : Nat
  not_started_tasks : Nat
  completion_rate : Rat
  tasks_completed_in_period : Nat
  daily_average : Rat
  days_present : Nat
  total_hours : Rat
  attendance_rate : Rat
  avg_hours_per_day : Rat
  productivity : Rat
  period : String
  days_in_period : Nat
  deriving Repr, DecidableEq

/-- The zeroed fallback dictionary of lines 1114-1129. -/
def zeroMetrics (period : String) : MetricsResult :=
  ⟨0, 0, 0, 0, 0, 0, 0, 0, 0, 0, 0, 0, period, 0⟩

/-- `get_performance_metrics` (lines 1109-1129): zeroed default. -/
def get_performance_metrics_result (period : String) (f : Nat → DBOutcome MetricsResult) :
    Except DBError MetricsResult :=
  fetchWithDefault (zeroMetrics period) f

theorem fetchWithDefault_ok {α : Type} (dflt : α) (f : Nat → DBOutcome α) :
    ∃ v, fetchWithDefault dflt f = .ok v := by
  unfold fetchWithDefault
  cases execute_db_operation f 3 with
  | ok v => exact ⟨v, rfl⟩
  | error e => exact ⟨dflt, rfl⟩

theorem fetchWithDefault_of_error {α : Type} (dflt : α) (f : Nat → DBOutcome α)
    (h : ∃ e, execute_db_operation f 3 = .error e) :
    fetchWithDefault dflt f = .ok dflt := by
  obtain ⟨e, he⟩ := h
  unfold fetchWithDefault
  rw [he]

theorem attemptsFrom_le {α : Type} (f : Nat → DBOutcome α) (a r : Nat) :
    attemptsFrom f a r ≤ r := by
  induction r generalizing a with
  | zero => exact le_refl 0
  | succ k ih =>
    unfold attemptsFrom
    cases f a with
    | ok v =>
      show 1 ≤ k + 1
      omega
    | transient =>
      by_cases hk : k = 0
      · simp [hk]
      · simp only [hk, if_false, Bool.false_eq_true]
        have := ih (a + 1)
        omega
    | fatal =>
      show 1 ≤ k + 1
      omega

/-- C9: the data-fetch operations never propagate an exception (the
result is always an `ok` value); the retry loop makes at most 3 attempts;
and when the retry loop still fails, the caller receives the safe neutral
default — empty task list, empty prerequisites/dependents, zeroed
metrics. -/
theorem store_fetch_error_policy (ftasks : Nat → DBOutcome (List Task))
    (fdeps : Nat → DBOutcome (List Task × List Task))
    (fmetrics : Nat → DBOutcome MetricsResult) (period : String) :
    (∃ v, get_user_tasks_result ftasks = .ok v)
    ∧ (∃ v, get_task_dependencies_result fdeps = .ok v)
    ∧ (∃ v, get_performance_metrics_result period fmetrics = .ok v)
    ∧ attemptsFrom ftasks 0 3 ≤ 3
    ∧ attemptsFrom fdeps 0 3 ≤ 3
    ∧ attemptsFrom fmetrics 0 3 ≤ 3
    ∧ ((∃ e, execute_db_operation ftasks 3 = .error e) →
        get_user_tasks_result ftasks = .ok [])
    ∧ ((∃ e, execute_db_operation fdeps 3 = .error e) →
        get_task_dependencies_result fdeps = .ok ([], []))
    ∧ ((∃ e, execute_db_operation fmetrics 3 = .error e) →
        get_performance_metrics_result period fmetrics = .ok (zeroMetrics period)) :=
  ⟨fetchWithDefault_ok [] ftasks,
   fetchWithDefault_ok ([], []) fdeps,
   fetchWithDefault_ok (zeroMetrics period) fmetrics,
   attemptsFrom_le ftasks 0 3,
   attemptsFrom_le fdeps 0 3,
   attemptsFrom_le fmetrics 0 3,
   fun h => fetchWithDefault_of_error [] ftasks h,
   fun h => fetchWithDefault_of_error ([], []) fdeps h,
   fun h => fetchWithDefault_of_error (zeroMetrics period) fmetrics h⟩

/-- Witness for C9: an operation that fails transiently on every attempt
still yields the neutral default, never an exception. -/
theorem store_fetch_error_policy_witness :
    get_user_tasks_result (fun _ => DBOutcome.transient) = Except.ok [] :=
  (store_fetch_error_policy (fun _ => DBOutcome.transient) (fun _ => DBOutcome.transient)
      (fun _ => DBOutcome.transient) "weekly").2.2.2.2.2.2.1
    ⟨DBError.transient, rfl⟩

/-! ### C8: the period windows of get_performance_metrics
(src/models/database.py lines 1048-1077).  Python datetimes are modelled
as a proleptic-Gregorian civil date plus seconds within the day. -/

/-- Leap years as Python's calendar has them. -/
def isLeap (y : Nat) : Bool := (y % 4 = 0 && !(y % 100 = 0)) || y % 400 = 0

def daysInMonth (y m : Nat) : Nat :=
  if m = 2 then (if isLeap y then 29 else 28)
  else if m = 4 || m = 6 || m = 9 || m = 11 then 30
  else 31

structure Date where
  year : Nat
  month : Nat
  day : Nat
  deriving Repr, DecidableEq

theorem Date.year_mk (y m d : Nat) : (Date.mk y m d).year = y := rfl

theorem Date.month_mk (y m d : Nat) : (Date.mk y m d).month = m := rfl

theorem Date.day_mk (y m d : Nat) : (Date.mk y m d).day = d := rfl

def Date.valid (d : Date) : Prop :=
  1 ≤ d.month ∧ d.month ≤ 12 ∧ 1 ≤ d.day ∧ d.day ≤ daysInMonth d.year d.month

instance (d : Date) : Decidable d.valid := by
  unfold Date.valid
  infer_instance

/-- Days since 0000-03-01 of the proleptic Gregorian calendar (the civil
day-number scheme Python's `date` arithmetic realizes). -/
def toOrdinal (d : Date) : Nat :=
  let y := if d.month ≤ 2 then d.year - 1 else d.year
  let era := y / 400
  let yoe := y % 400
  let mp := if d.month > 2 then d.month - 3 else d.month + 9
  let doy := (153 * mp + 2) / 5 + d.day - 1
  era * 146097 + (yoe * 365 + yoe / 4 - yoe / 100 + doy)

/-- `datetime.weekday()`: Monday is 0.  0001-01-01 (ordinal 306) is a
Monday, so the shift is 2. -/
def weekday (d : Date) : Nat := (toOrdinal d + 2) % 7

def nextDay (d : Date) : Date :=
  if d.day < daysInMonth d.year d.month then ⟨d.year, d.month, d.day + 1⟩
  else if d.month < 12 then ⟨d.year, d.month + 1, 1⟩
  else ⟨d.year + 1, 1, 1⟩

def prevDay (d : Date) : Date :=
  if 1 < d.day then ⟨d.year, d.month, d.day - 1⟩
  else if 1 < d.month then ⟨d.year, d.month - 1, daysInMonth d.year (d.month - 1)⟩
  else ⟨d.year - 1, 12, 31⟩

/-- `date + timedelta(days=n)`. -/
def addDays (d : Date) : Nat → Date
  | 0 => d
  | n + 1 => addDays (nextDay d) n

/-- `date - timedelta(days=n)`. -/
def subDays (d : Date) : Nat → Date
  | 0 => d
  | n + 1 => subDays (prevDay d) n

theorem isLeap_iff (y : Nat) :
    isLeap y = true ↔ ((y % 4 = 0 ∧ ¬ y % 100 = 0) ∨ y % 400 = 0) := by
  unfold isLeap
  simp

theorem daysInMonth_two (y : Nat) :
    daysInMonth y 2 = if (y % 4 = 0 ∧ ¬ y % 100 = 0) ∨ y % 400 = 0 then 29 else 28 := by
  by_cases hc : (y % 4 = 0 ∧ ¬ y % 100 = 0) ∨ y % 400 = 0
  · rw [if_pos hc]
    simp only [daysInMonth]
    rw [if_pos trivial, if_pos ((isLeap_iff y).mpr hc)]
  · rw [if_neg hc]
    simp only [daysInMonth]
    rw [if_pos trivial, if_neg (fun h => hc ((isLeap_iff y).mp h))]

theorem daysInMonth_ge (y m : Nat) : 28 ≤ daysInMonth y m := by
  unfold daysInMonth
  split_ifs <;> omega

/-- One backward day step decrements the civil ordinal. -/
theorem toOrdinal_prevDay (y m dd : Nat) (hm1 : 1 ≤ m) (hm2 : m ≤ 12)
    (hd1 : 1 ≤ dd) (hd2 : dd ≤ daysInMonth y m) (hy : 1 ≤ y) :
    toOrdinal (prevDay ⟨y, m, dd⟩) + 1 = toOrdinal ⟨y, m, dd⟩ := by
  by_cases hgt : 1 < dd
  · simp only [prevDay, if_pos hgt, toOrdinal]
    omega
  · have hdd : dd = 1 := by omega
    subst hdd
    by_cases hmgt : 1 < m
    · simp only [prevDay, lt_irrefl, if_false, if_pos hmgt]
      by_cases hm3 : m = 3
      · subst hm3
        rw [show (3 : Nat) - 1 = 2 from rfl, daysInMonth_two]
        by_cases hc : (y % 4 = 0 ∧ ¬ y % 100 = 0) ∨ y % 400 = 0
        · rw [if_pos hc]
          simp only [toOrdinal]
          norm_num
          omega
        · rw [if_neg hc]
          simp only [toOrdinal]
          norm_num
          omega
      · interval_cases m <;>
          simp only [toOrdinal, daysInMonth, isLeap] <;> norm_num <;> omega
    · have hm1' : m = 1 := by omega
      subst hm1'
      simp only [prevDay, lt_irrefl, if_false, toOrdinal]
      norm_num
      omega

theorem prevDay_valid (d : Date) (hv : d.valid) : (prevDay d).valid := by
  obtain ⟨y, m, dd⟩ := d
  obtain ⟨hm1, hm2, hd1, hd2⟩ := hv
  simp only at hm1 hm2 hd1 hd2
  by_cases hgt : 1 < dd
  · simp only [prevDay, if_pos hgt]
    exact ⟨hm1, hm2, by dsimp only; omega, by dsimp only; omega⟩
  · by_cases hmgt : 1 < m
    · simp only [prevDay, hgt, if_false, if_pos hmgt]
      have h28 := daysInMonth_ge y (m - 1)
      exact ⟨by dsimp only; omega, by dsimp only; omega, by dsimp only; omega,
        by dsimp only; exact le_refl _⟩
    · simp only [prevDay, hgt, hmgt, if_false]
      have h31 : daysInMonth (y - 1) 12 = 31 := by norm_num [daysInMonth]
      exact ⟨by dsimp only; omega, by dsimp only; omega, by dsimp only; omega,
        by dsimp only; omega⟩

/-- Walking `k ≤ 30` days backward from a valid date late enough in the
calendar subtracts exactly `k` from the ordinal. -/
theorem toOrdinal_subDays :
    ∀ k : Nat, k ≤ 30 →
      ∀ d : Date, d.valid → (2 ≤ d.year ∨ (d.year = 1 ∧ d.month = 12 ∧ k < d.day)) →
        toOrdinal (subDays d k) + k = toOrdinal d := by
  intro k
  induction k with
  | zero =>
    intro _ d _ _
    have h0 : subDays d 0 = d := rfl
    rw [h0]
    omega
  | succ j ih =>
    intro hk d hv hy
    have h1 : 1 ≤ d.year := by omega
    obtain ⟨hm1, hm2, hd1, hd2⟩ := hv
    have hdec : toOrdinal (prevDay d) + 1 = toOrdinal d := by
      have := toOrdinal_prevDay d.year d.month d.day hm1 hm2 hd1 hd2 h1
      simpa using this
    have hpv : (prevDay d).valid := prevDay_valid d ⟨hm1, hm2, hd1, hd2⟩
    have hpy : 2 ≤ (prevDay d).year ∨
        ((prevDay d).year = 1 ∧ (prevDay d).month = 12 ∧ j < (prevDay d).day) := by
      obtain ⟨y, m, dd⟩ := d
      simp only [Date.year_mk, Date.month_mk, Date.day_mk] at hm1 hm2 hd1 hd2 hy h1
      simp only [prevDay, Date.year_mk, Date.month_mk, Date.day_mk]
      split_ifs with hgt hmgt <;>
        simp only [Date.year_mk, Date.month_mk, Date.day_mk, true_and, and_true,
          eq_self_iff_true] <;> omega
    have hrec := ih (by omega) (prevDay d) hpv hpy
    show toOrdinal (subDays (prevDay d) j) + (j + 1) = toOrdinal d
    omega

set_option maxHeartbeats 1600000 in
/-- The day-28-plus-4-days trick of lines 1062-1064 computes exactly the
number of days of the current month. -/
theorem monthly_days_trick (y m : Nat) (hm1 : 1 ≤ m) (hm2 : m ≤ 12) :
    (subDays (addDays ⟨y, m, 28⟩ 4) (addDays ⟨y, m, 28⟩ 4).day).day = daysInMonth y m := by
  by_cases hm2' : m = 2
  · subst hm2'
    by_cases hc : (y % 4 = 0 ∧ ¬ y % 100 = 0) ∨ y % 400 = 0
    · have h2 : daysInMonth y 2 = 29 := by rw [daysInMonth_two, if_pos hc]
      have h3 : daysInMonth y 3 = 31 := by norm_num [daysInMonth]
      have e1 : nextDay ⟨y, 2, 28⟩ = ⟨y, 2, 29⟩ := by norm_num [nextDay, h2]
      have e2 : nextDay ⟨y, 2, 29⟩ = ⟨y, 3, 1⟩ := by norm_num [nextDay, h2]
      have e3 : nextDay ⟨y, 3, 1⟩ = ⟨y, 3, 2⟩ := by norm_num [nextDay, h3]
      have e4 : nextDay ⟨y, 3, 2⟩ = ⟨y, 3, 3⟩ := by norm_num [nextDay, h3]
      have ha : addDays ⟨y, 2, 28⟩ 4 = ⟨y, 3, 3⟩ := by
        show nextDay (nextDay (nextDay (nextDay ⟨y, 2, 28⟩))) = ⟨y, 3, 3⟩
        rw [e1, e2, e3, e4]
      have p1 : prevDay ⟨y, 3, 3⟩ = ⟨y, 3, 2⟩ := by norm_num [prevDay]
      have p2 : prevDay ⟨y, 3, 2⟩ = ⟨y, 3, 1⟩ := by norm_num [prevDay]
      have p3 : prevDay ⟨y, 3, 1⟩ = ⟨y, 2, 29⟩ := by norm_num [prevDay, h2]
      rw [ha]
      show (subDays ⟨y, 3, 3⟩ 3).day = daysInMonth y 2
      have hs : subDays ⟨y, 3, 3⟩ 3 = ⟨y, 2, 29⟩ := by
        show prevDay (prevDay (prevDay ⟨y, 3, 3⟩)) = ⟨y, 2, 29⟩
        rw [p1, p2, p3]
      rw [hs, h2]
    · have h2 : daysInMonth y 2 = 28 := by rw [daysInMonth_two, if_neg hc]
      have h3 : daysInMonth y 3 = 31 := by norm_num [daysInMonth]
      have e1 : nextDay ⟨y, 2, 28⟩ = ⟨y, 3, 1⟩ := by norm_num [nextDay, h2]
      have e2 : nextDay ⟨y, 3, 1⟩ = ⟨y, 3, 2⟩ := by norm_num [nextDay, h3]
      have e3 : nextDay ⟨y, 3, 2⟩ = ⟨y, 3, 3⟩ := by norm_num [nextDay, h3]
      have e4 : nextDay ⟨y, 3, 3⟩ = ⟨y, 3, 4⟩ := by norm_num [nextDay, h3]
      have ha : addDays ⟨y, 2, 28⟩ 4 = ⟨y, 3, 4⟩ := by
        show nextDay (nextDay (nextDay (nextDay ⟨y, 2, 28⟩))) = ⟨y, 3, 4⟩
        rw [e1, e2, e3, e4]
      have p1 : prevDay ⟨y, 3, 4⟩ = ⟨y, 3, 3⟩ := by norm_num [prevDay]
      have p2 : prevDay ⟨y, 3, 3⟩ = ⟨y, 3, 2⟩ := by norm_num [prevDay]
      have p3 : prevDay ⟨y, 3, 2⟩ = ⟨y, 3, 1⟩ := by norm_num [prevDay]
      have p4 : prevDay ⟨y, 3, 1⟩ = ⟨y, 2, 28⟩ := by norm_num [prevDay, h2]
      rw [ha]
      show (subDays ⟨y, 3, 4⟩ 4).day = daysInMonth y 2
      have hs : subDays ⟨y, 3, 4⟩ 4 = ⟨y, 2, 28⟩ := by
        show prevDay (prevDay (prevDay (prevDay ⟨y, 3, 4⟩))) = ⟨y, 2, 28⟩
        rw [p1, p2, p3, p4]
      rw [hs, h2]
  · interval_cases m <;>
      first
        | (exact absurd rfl hm2')
        | norm_num [addDays, nextDay, subDays, prevDay, daysInMonth]

/-- A Python datetime: a civil date plus the time of day in seconds. -/
structure PyDateTime where
  date : Date
  secs : Nat
  deriving Repr, DecidableEq

/-- The period-window computation of `get_performance_metrics` (lines
1048-1068): start of the current day for "daily"; midnight of
`now - timedelta(days=now.weekday())` for "weekly" and for any unknown
period; first of the current month for "monthly", whose day count comes
from the day-28-plus-4 trick. -/
def periodWindow (period : String) (now : PyDateTime) : PyDateTime × Nat :=
  if period = "daily" then (⟨now.date, 0⟩, 1)
  else if period = "weekly" then (⟨subDays now.date (weekday now.date), 0⟩, 7)
  else if period = "monthly" then
    (⟨⟨now.date.year, now.date.month, 1⟩, 0⟩,
      (subDays (addDays ⟨now.date.year, now.date.month, 28⟩ 4)
        (addDays ⟨now.date.year, now.date.month, 28⟩ 4).day).day)
  else (⟨subDays now.date (weekday now.date), 0⟩, 7)

/-- `daily_average = tasks_completed_in_period / days_in_period`
(line 1077), as total rational division. -/
def daily_average (completedInPeriod daysInPeriod : Nat) : Rat :=
  (completedInPeriod : Rat) / (daysInPeriod : Rat)

set_option maxHeartbeats 1600000 in
/-- C8: the daily window starts at the start of the current day with 1
day; the weekly window starts at the most recent Monday 00:00 (weekday 0,
at most 6 days back, not after now) with 7 days; the monthly window
starts at the first of the current month with the month's actual day
count; and daily_average is completed-in-period over days-in-period
(which is the completed count itself for the daily window). -/
theorem get_performance_metrics_period_correct (now : PyDateTime)
    (hv : now.date.valid) (hy : 2 ≤ now.date.year) :
    periodWindow "daily" now = (⟨now.date, 0⟩, 1)
    ∧ ((periodWindow "weekly" now).1.secs = 0
        ∧ weekday (periodWindow "weekly" now).1.date = 0
        ∧ toOrdinal (periodWindow "weekly" now).1.date ≤ toOrdinal now.date
        ∧ toOrdinal now.date - toOrdinal (periodWindow "weekly" now).1.date < 7
        ∧ (periodWindow "weekly" now).2 = 7)
    ∧ ((periodWindow "monthly" now).1 = ⟨⟨now.date.year, now.date.month, 1⟩, 0⟩
        ∧ (periodWindow "monthly" now).2 = daysInMonth now.date.year now.date.month)
    ∧ (∀ c dp : Nat, daily_average c dp = (c : Rat) / (dp : Rat))
    ∧ (∀ c : Nat, daily_average c (periodWindow "daily" now).2 = (c : Rat)) := by
  have hw : periodWindow "weekly" now = (⟨subDays now.date (weekday now.date), 0⟩, 7) := rfl
  have hwd : weekday now.date < 7 := Nat.mod_lt _ (by norm_num)
  have hsub := toOrdinal_subDays (weekday now.date) (by omega) now.date hv (Or.inl hy)
  refine ⟨rfl, ⟨?_, ?_, ?_, ?_, ?_⟩, ⟨rfl, ?_⟩, fun c dp => rfl, fun c => ?_⟩
  · rw [hw]
  · rw [hw]
    show (toOrdinal (subDays now.date (weekday now.date)) + 2) % 7 = 0
    have hwdef : weekday now.date = (toOrdinal now.date + 2) % 7 := rfl
    omega
  · rw [hw]
    show toOrdinal (subDays now.date (weekday now.date)) ≤ toOrdinal now.date
    omega
  · rw [hw]
    show toOrdinal now.date - toOrdinal (subDays now.date (weekday now.date)) < 7
    omega
  · rw [hw]
  · show (subDays (addDays ⟨now.date.year, now.date.month, 28⟩ 4)
        (addDays ⟨now.date.year, now.date.month, 28⟩ 4).day).day
      = daysInMonth now.date.year now.date.month
    exact monthly_days_trick now.date.year now.date.month hv.1 hv.2.1
  · show daily_average c 1 = (c : Rat)
    unfold daily_average
    norm_num

/-- Witness for C8 at the concrete datetime 2026-10-12 00:00. -/
theorem get_performance_metrics_period_witness :
    (periodWindow "monthly" ⟨⟨2026, 10, 12⟩, 0⟩).2 = 31
    ∧ weekday (periodWindow "weekly" ⟨⟨2026, 10, 12⟩, 0⟩).1.date = 0 :=
  ⟨((get_performance_metrics_period_correct ⟨⟨2026, 10, 12⟩, 0⟩
        (by decide) (by decide)).2.2.1.2).trans (by decide),
    (get_performance_metrics_period_correct ⟨⟨2026, 10, 12⟩, 0⟩
        (by decide) (by decide)).2.1.2.1⟩

end ProgressTracker
